import Mathlib

/-!
Shallow embedding of `project.py` (cryptocurrency trading project):
`fetch_data`, `store_data_in_sql`, `compute_signals` and
`CryptoAnalyzer.analyze_data`, together with theorems settling the
specification claims about them.

Modelling conventions:
* a stored table row and an input candle both carry the six columns of the
  schema `(timestamp TEXT PRIMARY KEY, open REAL, high REAL, low REAL,
  close REAL, volume REAL)`; numeric columns are modelled as `ℚ`;
* the SQLite database is `Option (List Candle)`: `none` means the table does
  not exist yet, `some t` is the table `t` with its rows in insertion order;
* the timestamp column holds the string form of the pandas timestamp (the
  value of `df["timestamp"].astype(str)`), and all timestamp comparisons —
  the SQL `MAX(timestamp)` and the pandas `>` filter — are lexicographic
  string comparisons, exactly as in the code;
* the `timestamp TEXT PRIMARY KEY` constraint is modelled: an insert batch
  that would duplicate a stored timestamp (or repeats one internally) makes
  `pandas.DataFrame.to_sql` raise `sqlite3.IntegrityError`, modelled as
  `Except.error`;
* the external indicator library `pandas_ta` is an oracle parameter: a
  function giving, per row index of the time-ordered table, the optional
  (`none` = NaN) values of the five indicator columns.
-/

/-- A candle row with the six columns of the price table schema
`timestamp TEXT PRIMARY KEY, open REAL, high REAL, low REAL, close REAL,
volume REAL`.  The `timestamp` field holds the string form of the pandas
timestamp: it is both the value of the `timestamp_str` column that
`store_data_in_sql` builds on line 94 and the `TEXT` value actually stored. -/
structure Candle where
  timestamp : String
  «open» : ℚ
  high : ℚ
  low : ℚ
  close : ℚ
  volume : ℚ
  deriving DecidableEq, Repr

/-- The pandas DataFrame handed to `store_data_in_sql`: its candle rows plus,
when present, the `timestamp_str` column that line 94 adds in place
(`df["timestamp_str"] = df["timestamp"].astype(str)`).  A freshly fetched or
constructed DataFrame has `timestampStr = none`. -/
structure PriceDF where
  rows : List Candle
  timestampStr : Option (List String)
  deriving DecidableEq, Repr

/-- The comparison applied to the stored timestamps, both by SQLite's BINARY
collation (`MAX`, `ORDER BY` on the `TEXT` column) and by the pandas `>`
filter on the `timestamp_str` column: lexicographic order on the character
sequences of the strings. -/
def strLt (a b : String) : Prop := a.data < b.data

/-- The non-strict companion of `strLt`. -/
def strLe (a b : String) : Prop := a.data ≤ b.data

instance (a b : String) : Decidable (strLt a b) :=
  inferInstanceAs (Decidable (a.data < b.data))

instance (a b : String) : Decidable (strLe a b) :=
  inferInstanceAs (Decidable (a.data ≤ b.data))

/-- The binary maximum under the lexicographic order, used to model SQL
`MAX`. -/
def strMax (a b : String) : String := if strLe a b then b else a

/-- `SELECT MAX(timestamp) FROM table` (line 90): the lexicographic maximum of
the stored timestamp strings, `NULL` (`none`) when the table is empty. -/
def sqlMaxTs : List Candle → Option String
  | [] => none
  | c :: cs => some (cs.foldl (fun m x => strMax m x.timestamp) c.timestamp)

/-- Lines 95–99: `if last_timestamp_in_db:` uses Python truthiness (`None` and
the empty string are both falsy), and the filter
`df[df["timestamp_str"] > last_timestamp_in_db]` keeps exactly the rows whose
timestamp string is lexicographically greater than the stored maximum. -/
def rowsToInsert : Option String → List Candle → List Candle
  | none, rows => rows
  | some m, rows =>
      if m = "" then rows
      else rows.filter (fun c => decide (strLt m c.timestamp))

/-- The `timestamp TEXT PRIMARY KEY` uniqueness check applied by SQLite to the
batch appended by `to_sql` (line 111): every inserted timestamp must be new
relative to the table and the batch must not repeat a timestamp internally. -/
def pkOk (t batch : List Candle) : Prop :=
  (batch.map Candle.timestamp).Nodup ∧
    ∀ b ∈ batch, b.timestamp ∉ t.map Candle.timestamp

instance (t batch : List Candle) : Decidable (pkOk t batch) :=
  inferInstanceAs (Decidable ((batch.map Candle.timestamp).Nodup ∧
    ∀ b ∈ batch, b.timestamp ∉ t.map Candle.timestamp))

/-- The in-place mutation `store_data_in_sql` performs on its non-empty
argument before filtering: lines 66–68 cast the five numeric columns to float
(the identity on our `ℚ` values) and line 94 sets the `timestamp_str` column
to the string forms of the timestamps. -/
def mutDF (df : PriceDF) : PriceDF :=
  { rows := df.rows, timestampStr := some (df.rows.map Candle.timestamp) }

/-- `store_data_in_sql(df, db_name, table_name)` (lines 53–116), as a function
of the input DataFrame and the database state.  Returns the mutated
DataFrame, the new database state and the number of inserted rows, or
`Except.error` for the `sqlite3.IntegrityError` raised on a primary-key
violation.  An empty input returns `0` before touching the database (lines
61–63); otherwise the table is created if absent (lines 75–84), the input is
filtered against the stored maximum timestamp (lines 90–99), an empty
remainder returns `0` (lines 101–104), and otherwise the remainder is
appended and its length returned (lines 111–116). -/
def store_data_in_sql (df : PriceDF) (db : Option (List Candle)) :
    Except Unit (PriceDF × Option (List Candle) × Nat) :=
  if df.rows = [] then .ok (df, db, 0)
  else
    let t := db.getD []
    let batch := rowsToInsert (sqlMaxTs t) df.rows
    if batch = [] then .ok (mutDF df, some t, 0)
    else if pkOk t batch then .ok (mutDF df, some (t ++ batch), batch.length)
    else .error ()

/-- The relation used to model `ORDER BY timestamp` on the `TEXT` column:
lexicographic order on the timestamp strings. -/
def tsLe (a b : Candle) : Prop := strLe a.timestamp b.timestamp

instance : DecidableRel tsLe := fun a b =>
  inferInstanceAs (Decidable (strLe a.timestamp b.timestamp))

instance : IsTotal Candle tsLe :=
  ⟨fun a b => le_total a.timestamp.data b.timestamp.data⟩

instance : IsTrans Candle tsLe :=
  ⟨fun _ _ _ h h₂ => le_trans (α := List Char) h h₂⟩

/-- `SELECT * FROM table ORDER BY timestamp` (line 130): the rows sorted by
the lexicographic order of their timestamp strings (the storage engine may
use any sorting algorithm; we model it by insertion sort). -/
def orderByTimestamp (t : List Candle) : List Candle :=
  t.insertionSort tsLe

/-- The five indicator values `pandas_ta` attaches to one row (lines
142–147): 20-period EMA of close, 14-period RSI of close, VWAP, and the
Bollinger upper/lower bands at 20 periods / 2 standard deviations.  `none`
models NaN (the warm-up rows for which the indicator is undefined). -/
structure IndVals where
  EMA_20 : Option ℚ
  RSI : Option ℚ
  VWAP : Option ℚ
  BB_upper : Option ℚ
  BB_lower : Option ℚ
  deriving DecidableEq, Repr

/-- Oracle for the external `pandas_ta` library: given the time-ordered
candle list, it yields the indicator column values at each row index. -/
def TaOracle : Type := List Candle → Nat → IndVals

/-- A candle row extended with the five indicator columns. -/
structure ExtRow where
  candle : Candle
  EMA_20 : Option ℚ
  RSI : Option ℚ
  VWAP : Option ℚ
  BB_upper : Option ℚ
  BB_lower : Option ℚ
  deriving DecidableEq, Repr

/-- An extended row with the `signal` column attached. -/
structure SigRow extends ExtRow where
  signal : Int
  deriving DecidableEq, Repr

/-- Pandas elementwise `<` on possibly-NaN values: any comparison involving
NaN is false. -/
def optLt (a b : Option ℚ) : Bool :=
  match a, b with
  | some x, some y => decide (x < y)
  | _, _ => false

/-- Pandas elementwise `>` on possibly-NaN values: any comparison involving
NaN is false. -/
def optGt (a b : Option ℚ) : Bool :=
  match a, b with
  | some x, some y => decide (y < x)
  | _, _ => false

/-- `dropna` condition: all five indicator columns of the row are defined
(line 148 removes the rows where any of them is NaN). -/
def allDefined (r : ExtRow) : Bool :=
  r.EMA_20.isSome && r.RSI.isSome && r.VWAP.isSome &&
    r.BB_upper.isSome && r.BB_lower.isSome

/-- The bullish confluence condition of lines 154–159, comparison by
comparison in source order:
`(close > EMA_20) & (close > VWAP) & (RSI > 50) & (RSI < 70) &
(close < BB_upper)`, with pandas NaN semantics. -/
def bullish_conditions (r : ExtRow) : Bool :=
  optGt (some r.candle.close) r.EMA_20 &&
    optGt (some r.candle.close) r.VWAP &&
    optGt r.RSI (some 50) && optLt r.RSI (some 70) &&
    optLt (some r.candle.close) r.BB_upper

/-- The bearish confluence condition of lines 162–167, comparison by
comparison in source order:
`(close < EMA_20) & (close < VWAP) & (RSI < 50) & (close > BB_lower)`,
with pandas NaN semantics. -/
def bearish_conditions (r : ExtRow) : Bool :=
  optLt (some r.candle.close) r.EMA_20 &&
    optLt (some r.candle.close) r.VWAP &&
    optLt r.RSI (some 50) &&
    optGt (some r.candle.close) r.BB_lower

/-- The per-row signal produced by lines 151–171: initialised to `0`, set to
`1` on the rows matching `bullish_conditions`, then set to `-1` on the rows
matching `bearish_conditions` (the bearish assignment is performed second, so
it would win if a row matched both). -/
def signalOf (r : ExtRow) : Int :=
  let s : Int := 0
  let s : Int := if bullish_conditions r then 1 else s
  if bearish_conditions r then -1 else s

/-- Extends the `i`-th time-ordered candle with the oracle's indicator
columns for that index. -/
def extendWith (ta : TaOracle) (sorted : List Candle) (i : Nat) (c : Candle) :
    ExtRow :=
  let v := ta sorted i
  { candle := c, EMA_20 := v.EMA_20, RSI := v.RSI, VWAP := v.VWAP,
    BB_upper := v.BB_upper, BB_lower := v.BB_lower }

/-- `compute_signals(db_name, table_name)` (lines 118–173), as a function of
the stored table and the `pandas_ta` oracle.  Reads all rows ordered by
timestamp (line 130), returns an empty result when there are none (lines
133–135), attaches the five indicator columns (lines 142–147), drops the
rows on which any indicator is NaN (line 148), and attaches the signal
column (lines 151–171). -/
def compute_signals (table : List Candle) (ta : TaOracle) : List SigRow :=
  let df := orderByTimestamp table
  if df = [] then []
  else
    let ext := df.enum.map (fun p => extendWith ta df p.1 p.2)
    let kept := ext.filter (fun r => allDefined r)
    kept.map (fun r => { toExtRow := r, signal := signalOf r })

/-- A raw OHLCV row returned by the exchange: epoch-millisecond timestamp and
the five numeric columns.  `pd.to_datetime(ms)` (line 46) is strictly
monotone in the epoch milliseconds, so we keep the integer timestamp as the
sort key. -/
structure OhlcvRow where
  timestamp : Int
  «open» : ℚ
  high : ℚ
  low : ℚ
  close : ℚ
  volume : ℚ
  deriving DecidableEq, Repr

/-- The relation used to model `df.sort_values("timestamp")` (line 47). -/
def msLe (a b : OhlcvRow) : Prop := a.timestamp ≤ b.timestamp

instance : DecidableRel msLe := fun a b =>
  inferInstanceAs (Decidable (a.timestamp ≤ b.timestamp))

instance : IsTotal OhlcvRow msLe := ⟨fun a b => le_total a.timestamp b.timestamp⟩

instance : IsTrans OhlcvRow msLe := ⟨fun _ _ _ h h₂ => le_trans h h₂⟩

/-- The upstream `ccxt` exchange: `fetch_ohlcv(symbol, timeframe, limit)`
either returns rows or raises (modelled by `Except.error` with the message). -/
def Exchange : Type := String → String → Nat → Except String (List OhlcvRow)

/-- `fetch_data(symbol, timeframe, limit)` (lines 33–51), as a function of the
upstream exchange.  On success the rows are sorted ascending by timestamp
(line 47) and returned; if the upstream call raises, the error is only
printed and an empty DataFrame is returned (lines 49–51). -/
def fetch_data (exchange : Exchange) (symbol timeframe : String) (limit : Nat) :
    List OhlcvRow :=
  match exchange symbol timeframe limit with
  | .ok ohlcv => ohlcv.insertionSort msLe
  | .error _ => []

/-- The DataFrame seen by `CryptoAnalyzer.analyze_data`: its number of rows
and, when the `signal` column is present, that column's values. -/
structure AnalyzerDF where
  nrows : Nat
  signalCol : Option (List Int)
  deriving DecidableEq, Repr

/-- The result dictionary `{"buy": _, "sell": _, "hold": _}` of
`analyze_data`. -/
structure SignalCounts where
  buy : Nat
  sell : Nat
  hold : Nat
  deriving DecidableEq, Repr

/-- The `CryptoAnalyzer` class (lines 179–208): it wraps the DataFrame given
to `__init__`. -/
structure CryptoAnalyzer where
  df : AnalyzerDF
  deriving DecidableEq, Repr

/-- `CryptoAnalyzer.analyze_data` (lines 194–208): all-zero counts when the
DataFrame is empty or has no `signal` column (lines 202–203), otherwise the
counts of the rows whose signal equals `1`, `-1` and `0` (lines 205–208). -/
def CryptoAnalyzer.analyze_data (a : CryptoAnalyzer) : SignalCounts :=
  if a.df.nrows = 0 ∨ a.df.signalCol = none then
    { buy := 0, sell := 0, hold := 0 }
  else
    let l := a.df.signalCol.getD []
    { buy := l.countP (fun s => decide (s = 1)),
      sell := l.countP (fun s => decide (s = -1)),
      hold := l.countP (fun s => decide (s = 0)) }

/-! ### Helper lemmas -/

/-! ### Concrete instances used by the witness theorems -/

/-- The five distinct-timestamp test candles of `test_store_data_in_sql`
(test_project.py lines 72–80), with the timestamp strings that
`astype(str)` produces for `pd.date_range("2023-01-01", periods=5,
freq="D")`. -/
def testDF5 : PriceDF :=
  { rows :=
      [⟨"2023-01-01 00:00:00", 17000, 17100, 16900, 17050, 100⟩,
       ⟨"2023-01-02 00:00:00", 17100, 17200, 17000, 17150, 200⟩,
       ⟨"2023-01-03 00:00:00", 17200, 17300, 17100, 17250, 300⟩,
       ⟨"2023-01-04 00:00:00", 17300, 17400, 17200, 17350, 400⟩,
       ⟨"2023-01-05 00:00:00", 17400, 17500, 17300, 17450, 500⟩],
    timestampStr := none }

def c9empty : CryptoAnalyzer := ⟨{ nrows := 0, signalCol := none }⟩

def c9full : CryptoAnalyzer := ⟨{ nrows := 4, signalCol := some [1, -1, 0, 1] }⟩

def c10df : PriceDF :=
  { rows := [⟨"2023-02-01 00:00:00", 1, 2, 0, 1, 3⟩], timestampStr := none }

def exchangeDown : Exchange := fun _ _ _ => .error ("network unreachable")

def exchangeUp : Exchange := fun _ _ _ =>
  .ok [⟨2, 1, 1, 1, 1, 1⟩, ⟨1, 2, 2, 2, 2, 2⟩]

def c1Table : List Candle := [⟨"2023-01-01 00:00:00", 1, 1, 1, 1, 1⟩]

def c1New : Candle := ⟨"2023-01-02 00:00:00", 2, 2, 2, 2, 2⟩

def c1DF : PriceDF := { rows := [c1New], timestampStr := none }

def c4Table : List Candle := [⟨"2024-01-01 00:00:00", 1, 1, 1, 1, 1⟩]

def c4Old : Candle := ⟨"2023-12-31 00:00:00", 1, 1, 1, 1, 1⟩

def c4New : Candle := ⟨"2024-01-02 00:00:00", 2, 2, 2, 2, 2⟩

def c4DF : PriceDF := { rows := [c4Old, c4New], timestampStr := none }

def c2Candle : Candle := ⟨"2023-03-01 00:00:00", 1, 1, 1, 10, 1⟩

def c2Table : List Candle := [c2Candle]

def c2Ta : TaOracle := fun _ _ =>
  { EMA_20 := some 5, RSI := some 60, VWAP := some 5,
    BB_upper := some 20, BB_lower := some 0 }

def c2Row : SigRow :=
  { candle := c2Candle, EMA_20 := some 5, RSI := some 60, VWAP := some 5,
    BB_upper := some 20, BB_lower := some 0, signal := 1 }

def c8Candle : Candle := ⟨"2023-04-01 00:00:00", 1, 1, 1, 1, 1⟩

def c8Table : List Candle := [c8Candle]

def c8Ta : TaOracle := fun _ _ =>
  { EMA_20 := some 5, RSI := some 40, VWAP := some 5,
    BB_upper := some 20, BB_lower := some 0 }

def c8Row : SigRow :=
  { candle := c8Candle, EMA_20 := some 5, RSI := some 40, VWAP := some 5,
    BB_upper := some 20, BB_lower := some 0, signal := -1 }

def c7Warm : Candle := ⟨"2023-06-01 00:00:00", 1, 1, 1, 1, 1⟩

def c7Live : Candle := ⟨"2023-06-02 00:00:00", 2, 2, 2, 2, 2⟩

def c7Table : List Candle := [c7Warm, c7Live]

def c7Ta : TaOracle := fun _ i =>
  if i = 0 then
    { EMA_20 := none, RSI := none, VWAP := none,
      BB_upper := none, BB_lower := none }
  else
    { EMA_20 := some 1, RSI := some 55, VWAP := some 1,
      BB_upper := some 3, BB_lower := some 0 }

def c7Row : SigRow :=
  { candle := c7Live, EMA_20 := some 1, RSI := some 55, VWAP := some 1,
    BB_upper := some 3, BB_lower := some 0, signal := 1 }

def c3DF : PriceDF :=
  { rows := [⟨"2023-05-01 00:00:00", 1, 1, 1, 1, 1⟩,
             ⟨"2023-05-02 00:00:00", 2, 2, 2, 2, 2⟩],
    timestampStr := none }

theorem strLt_iff (a b : String) : strLt a b ↔ a < b :=
  Iff.symm String.lt_iff_toList_lt

theorem strLe_iff (a b : String) : strLe a b ↔ a ≤ b :=
  Iff.symm String.le_iff_toList_le

theorem strLe_refl (a : String) : strLe a a := le_refl a.data

theorem strLe_trans {a b c : String} (h : strLe a b) (h₂ : strLe b c) :
    strLe a c := le_trans (α := List Char) h h₂

theorem string_empty_le (s : String) : "" ≤ s := by
  by_cases h : s = ""
  · subst h; exact le_refl _
  · refine le_of_lt ?_
    rw [String.lt_iff_toList_lt, String.toList_empty, String.toList_nonempty h]
    exact List.nil_lt_cons _ _

theorem str_eq_empty_of_le {s : String} (h : strLe s "") : s = "" :=
  le_antisymm ((strLe_iff s "").mp h) (string_empty_le s)

theorem strLe_strMax_left (a b : String) : strLe a (strMax a b) := by
  by_cases h : strLe a b
  · rw [strMax, if_pos h]; exact h
  · rw [strMax, if_neg h]; exact strLe_refl a

theorem strLe_strMax_right (a b : String) : strLe b (strMax a b) := by
  by_cases h : strLe a b
  · rw [strMax, if_pos h]; exact strLe_refl b
  · rw [strMax, if_neg h]; exact le_of_not_le h

theorem strMax_choice (a b : String) : strMax a b = a ∨ strMax a b = b := by
  by_cases h : strLe a b
  · rw [strMax, if_pos h]; exact Or.inr rfl
  · rw [strMax, if_neg h]; exact Or.inl rfl

theorem foldl_strMax_le_init (l : List Candle) (b : String) :
    strLe b (l.foldl (fun m x => strMax m x.timestamp) b) := by
  induction l generalizing b with
  | nil => exact strLe_refl b
  | cons x xs ih =>
    simp only [List.foldl_cons]
    exact strLe_trans (strLe_strMax_left b x.timestamp) (ih (strMax b x.timestamp))

theorem mem_strLe_foldl_strMax {c : Candle} {l : List Candle} (h : c ∈ l)
    (b : String) :
    strLe c.timestamp (l.foldl (fun m x => strMax m x.timestamp) b) := by
  induction l generalizing b with
  | nil => cases h
  | cons x xs ih =>
    simp only [List.foldl_cons]
    rcases List.mem_cons.mp h with rfl | hx
    · exact strLe_trans (strLe_strMax_right b c.timestamp)
        (foldl_strMax_le_init xs _)
    · exact ih hx _

theorem le_sqlMaxTs {c : Candle} {t : List Candle} {m : String}
    (hc : c ∈ t) (hm : sqlMaxTs t = some m) : strLe c.timestamp m := by
  cases t with
  | nil => cases hc
  | cons x xs =>
    simp only [sqlMaxTs, Option.some.injEq] at hm
    subst hm
    rcases List.mem_cons.mp hc with rfl | h
    · exact foldl_strMax_le_init xs _
    · exact mem_strLe_foldl_strMax h _

theorem foldl_strMax_mem (l : List Candle) (b : String) :
    l.foldl (fun m x => strMax m x.timestamp) b = b ∨
      l.foldl (fun m x => strMax m x.timestamp) b ∈ l.map Candle.timestamp := by
  induction l generalizing b with
  | nil => exact Or.inl rfl
  | cons x xs ih =>
    simp only [List.foldl_cons, List.map_cons, List.mem_cons]
    rcases ih (strMax b x.timestamp) with h | h
    · rcases strMax_choice b x.timestamp with hb | hb
      · exact Or.inl (h.trans hb)
      · exact Or.inr (Or.inl (h.trans hb))
    · exact Or.inr (Or.inr h)

theorem sqlMaxTs_mem {t : List Candle} {m : String} (hm : sqlMaxTs t = some m) :
    m ∈ t.map Candle.timestamp := by
  cases t with
  | nil => cases hm
  | cons x xs =>
    simp only [sqlMaxTs, Option.some.injEq] at hm
    subst hm
    simp only [List.map_cons, List.mem_cons]
    rcases foldl_strMax_mem xs x.timestamp with h | h
    · exact Or.inl h
    · exact Or.inr h

theorem sqlMaxTs_eq_none {t : List Candle} (h : sqlMaxTs t = none) : t = [] := by
  cases t with
  | nil => rfl
  | cons x xs => simp [sqlMaxTs] at h

theorem rowsToInsert_sublist (last : Option String) (rows : List Candle) :
    List.Sublist (rowsToInsert last rows) rows := by
  cases last with
  | none => exact List.Sublist.refl rows
  | some m =>
    by_cases h : m = ""
    · simp only [rowsToInsert, if_pos h]
      exact List.Sublist.refl rows
    · simp only [rowsToInsert, if_neg h]
      exact List.filter_sublist rows

theorem mem_of_mem_rowsToInsert {last : Option String} {rows : List Candle}
    {b : Candle} (h : b ∈ rowsToInsert last rows) : b ∈ rows :=
  (rowsToInsert_sublist last rows).subset h

theorem rowsToInsert_nodup {last : Option String} {rows : List Candle}
    (h : (rows.map Candle.timestamp).Nodup) :
    ((rowsToInsert last rows).map Candle.timestamp).Nodup :=
  List.Nodup.sublist ((rowsToInsert_sublist last rows).map Candle.timestamp) h

theorem gt_of_mem_rowsToInsert {m : String} {rows : List Candle} {b : Candle}
    (hm : m ≠ "") (h : b ∈ rowsToInsert (some m) rows) : strLt m b.timestamp := by
  simp only [rowsToInsert, if_neg hm] at h
  have := (List.mem_filter.mp h).2
  exact of_decide_eq_true this

theorem le_of_not_mem_rowsToInsert {m : String} {rows : List Candle} {c : Candle}
    (hm : m ≠ "") (hc : c ∈ rows) (h : c ∉ rowsToInsert (some m) rows) :
    strLe c.timestamp m := by
  simp only [rowsToInsert, if_neg hm] at h
  by_contra hlt
  exact h (List.mem_filter.mpr ⟨hc, decide_eq_true (not_le.mp hlt)⟩)

/-- Successful runs of `store_data_in_sql` have exactly two shapes: the
empty-input short circuit, or the mutated DataFrame together with the
filtered batch appended to the (possibly just created) table. -/
theorem store_ok_shape {df df' : PriceDF} {db db' : Option (List Candle)}
    {n : Nat} (h : store_data_in_sql df db = .ok (df', db', n)) :
    (df.rows = [] ∧ df' = df ∧ db' = db ∧ n = 0) ∨
    (df.rows ≠ [] ∧ df' = mutDF df ∧
      db' = some (db.getD [] ++ rowsToInsert (sqlMaxTs (db.getD [])) df.rows) ∧
      n = (rowsToInsert (sqlMaxTs (db.getD [])) df.rows).length ∧
      pkOk (db.getD []) (rowsToInsert (sqlMaxTs (db.getD [])) df.rows)) := by
  unfold store_data_in_sql at h
  by_cases h0 : df.rows = []
  · rw [if_pos h0] at h
    simp only [Except.ok.injEq, Prod.mk.injEq] at h
    obtain ⟨rfl, rfl, rfl⟩ := h
    exact Or.inl ⟨h0, rfl, rfl, rfl⟩
  · rw [if_neg h0] at h
    by_cases hb : rowsToInsert (sqlMaxTs (db.getD [])) df.rows = []
    · rw [if_pos hb] at h
      simp only [Except.ok.injEq, Prod.mk.injEq] at h
      obtain ⟨rfl, rfl, rfl⟩ := h
      refine Or.inr ⟨h0, rfl, ?_, ?_, ?_⟩
      · rw [hb, List.append_nil]
      · rw [hb]; rfl
      · rw [hb]
        exact ⟨List.nodup_nil, by intro b hb'; cases hb'⟩
    · rw [if_neg hb] at h
      by_cases hpk : pkOk (db.getD []) (rowsToInsert (sqlMaxTs (db.getD [])) df.rows)
      · rw [if_pos hpk] at h
        simp only [Except.ok.injEq, Prod.mk.injEq] at h
        obtain ⟨rfl, rfl, rfl⟩ := h
        exact Or.inr ⟨h0, rfl, rfl, rfl, hpk⟩
      · rw [if_neg hpk] at h
        cases h

theorem orderByTimestamp_perm (t : List Candle) :
    List.Perm (orderByTimestamp t) t :=
  List.perm_insertionSort tsLe t

theorem orderByTimestamp_sorted (t : List Candle) :
    (orderByTimestamp t).Pairwise tsLe :=
  List.sorted_insertionSort tsLe t

theorem orderByTimestamp_map_le (t : List Candle) :
    ((orderByTimestamp t).map Candle.timestamp).Pairwise (· ≤ ·) :=
  List.pairwise_map.mpr
    ((orderByTimestamp_sorted t).imp
      (fun h => (strLe_iff _ _).mp h))

theorem orderByTimestamp_pairwise_lt {t : List Candle}
    (h : (t.map Candle.timestamp).Nodup) :
    ((orderByTimestamp t).map Candle.timestamp).Pairwise (· < ·) := by
  have hnd : ((orderByTimestamp t).map Candle.timestamp).Nodup :=
    (((orderByTimestamp_perm t).map Candle.timestamp).nodup_iff).mpr h
  exact ((orderByTimestamp_map_le t).and hnd).imp
    (fun hab => lt_of_le_of_ne hab.1 hab.2)

theorem exclusive_conditions (r : ExtRow) :
    ¬(bullish_conditions r = true ∧ bearish_conditions r = true) := by
  rintro ⟨hb, hs⟩
  simp only [bullish_conditions, Bool.and_eq_true] at hb
  simp only [bearish_conditions, Bool.and_eq_true] at hs
  have h1 : optGt (some r.candle.close) r.EMA_20 = true := hb.1.1.1.1
  have h2 : optLt (some r.candle.close) r.EMA_20 = true := hs.1.1.1
  cases hE : r.EMA_20 with
  | none => simp [optGt, hE] at h1
  | some e =>
    simp only [optGt, hE, decide_eq_true_eq] at h1
    simp only [optLt, hE, decide_eq_true_eq] at h2
    exact absurd h2 (not_lt_of_gt h1)

theorem signalOf_eq_one_iff (r : ExtRow) :
    signalOf r = 1 ↔ bullish_conditions r = true := by
  unfold signalOf
  by_cases hs : bearish_conditions r = true
  · rw [if_pos hs]
    constructor
    · intro h; cases h
    · intro hb; exact absurd ⟨hb, hs⟩ (exclusive_conditions r)
  · rw [if_neg hs]
    by_cases hb : bullish_conditions r = true
    · rw [if_pos hb]; exact ⟨fun _ => hb, fun _ => rfl⟩
    · rw [if_neg hb]
      constructor
      · intro h; cases h
      · intro h; exact absurd h hb

theorem signalOf_eq_negone_iff (r : ExtRow) :
    signalOf r = -1 ↔ bearish_conditions r = true := by
  unfold signalOf
  by_cases hs : bearish_conditions r = true
  · rw [if_pos hs]; exact ⟨fun _ => hs, fun _ => rfl⟩
  · rw [if_neg hs]
    by_cases hb : bullish_conditions r = true
    · rw [if_pos hb]
      constructor
      · intro h; cases h
      · intro h; exact absurd h hs
    · rw [if_neg hb]
      constructor
      · intro h; cases h
      · intro h; exact absurd h hs

theorem signalOf_eq_zero_iff (r : ExtRow) :
    signalOf r = 0 ↔
      (bullish_conditions r = false ∧ bearish_conditions r = false) := by
  unfold signalOf
  by_cases hs : bearish_conditions r = true
  · rw [if_pos hs]
    constructor
    · intro h; cases h
    · rintro ⟨-, h2⟩; rw [hs] at h2; cases h2
  · rw [if_neg hs]
    by_cases hb : bullish_conditions r = true
    · rw [if_pos hb]
      constructor
      · intro h; cases h
      · rintro ⟨h1, -⟩; rw [hb] at h1; cases h1
    · rw [if_neg hb]
      exact ⟨fun _ => ⟨Bool.eq_false_iff.mpr hb, Bool.eq_false_iff.mpr hs⟩,
        fun _ => rfl⟩

theorem mem_compute_signals {table : List Candle} {ta : TaOracle} {r : SigRow}
    (h : r ∈ compute_signals table ta) :
    allDefined r.toExtRow = true ∧ r.signal = signalOf r.toExtRow := by
  unfold compute_signals at h
  by_cases h0 : orderByTimestamp table = []
  · rw [if_pos h0] at h; cases h
  · rw [if_neg h0] at h
    simp only [List.mem_map, List.mem_filter] at h
    obtain ⟨e, ⟨-, hdef⟩, rfl⟩ := h
    exact ⟨hdef, rfl⟩

/-! ### Claim theorems -/

/-- C5: `store_data_in_sql` returns the count of rows it appended.  An empty
input short-circuits and returns `0` with the database completely untouched
(an absent table stays absent, since `db` is returned unchanged), and the
five distinct-timestamp test candles stored into an empty table return `5`,
leaving a table of exactly those five rows — each a `Candle`, i.e. each
carrying all six schema columns. -/
theorem store_data_in_sql_return_count :
    (∀ (df : PriceDF) (db : Option (List Candle)), df.rows = [] →
      store_data_in_sql df db = .ok (df, db, 0)) ∧
    store_data_in_sql testDF5 (some []) =
      .ok (mutDF testDF5, some testDF5.rows, 5) ∧
    testDF5.rows.length = 5 ∧
    (testDF5.rows.map Candle.timestamp).Nodup := by
  refine ⟨?_, ?_, ?_, ?_⟩
  · intro df db h
    unfold store_data_in_sql
    rw [if_pos h]
  · rfl
  · rfl
  · decide

theorem store_data_in_sql_return_count_witness :
    store_data_in_sql { rows := [], timestampStr := none } none =
      .ok ({ rows := [], timestampStr := none }, none, 0) :=
  store_data_in_sql_return_count.1 { rows := [], timestampStr := none } none rfl

/-- C9: `CryptoAnalyzer.analyze_data` returns all-zero counts, raising no
error, whenever its DataFrame is empty or lacks a `signal` column, and
otherwise returns the counts of the rows whose signal equals `1`, `-1` and
`0` respectively. -/
theorem analyze_data_counts (a : CryptoAnalyzer) :
    ((a.df.nrows = 0 ∨ a.df.signalCol = none) →
      a.analyze_data = { buy := 0, sell := 0, hold := 0 }) ∧
    (∀ l, a.df.signalCol = some l → a.df.nrows ≠ 0 →
      a.analyze_data =
        { buy := l.countP (fun s => decide (s = 1)),
          sell := l.countP (fun s => decide (s = -1)),
          hold := l.countP (fun s => decide (s = 0)) }) := by
  constructor
  · intro h
    unfold CryptoAnalyzer.analyze_data
    rw [if_pos h]
  · intro l hl hn
    unfold CryptoAnalyzer.analyze_data
    rw [if_neg (by push_neg; exact ⟨hn, by rw [hl]; exact Option.some_ne_none l⟩)]
    rw [hl]
    rfl

theorem analyze_data_counts_witness :
    c9empty.analyze_data = { buy := 0, sell := 0, hold := 0 } ∧
    c9full.analyze_data = { buy := 2, sell := 1, hold := 1 } := by
  constructor
  · exact (analyze_data_counts c9empty).1 (Or.inl rfl)
  · have h := (analyze_data_counts c9full).2 [1, -1, 0, 1] rfl (by decide)
    rw [h]
    rfl

/-- C10: `store_data_in_sql` mutates the caller's DataFrame before storing:
on every successful call with a non-empty input that does not yet carry a
`timestamp_str` column, the DataFrame after the call has a new
`timestamp_str` column (holding the string forms of the timestamps), so the
argument is not left unchanged; the float cast of the five numeric columns
(lines 66–68) is the identity on our `ℚ` model of the values. -/
theorem store_data_in_sql_mutates_df (df : PriceDF) (db : Option (List Candle))
    (h1 : df.rows ≠ []) (h2 : df.timestampStr = none) :
    ∀ df' db' n, store_data_in_sql df db = .ok (df', db', n) →
      df' ≠ df ∧ df'.timestampStr = some (df.rows.map Candle.timestamp) := by
  intro df' db' n h
  rcases store_ok_shape h with ⟨he, -, -, -⟩ | ⟨-, hdf, -, -, -⟩
  · exact absurd he h1
  · subst hdf
    constructor
    · intro he
      have hts : (mutDF df).timestampStr = df.timestampStr :=
        congrArg PriceDF.timestampStr he
      rw [h2] at hts
      simp [mutDF] at hts
    · rfl

theorem store_data_in_sql_mutates_df_witness :
    mutDF c10df ≠ c10df ∧
      (mutDF c10df).timestampStr = some (c10df.rows.map Candle.timestamp) :=
  store_data_in_sql_mutates_df c10df none (List.cons_ne_nil _ _) rfl
    (mutDF c10df) (some c10df.rows) 1 rfl

/-- C6: `fetch_data` returns the upstream candles sorted ascending by
timestamp on success, and returns an empty result — swallowing rather than
propagating the exception — whenever the upstream call raises, for every
symbol, timeframe and limit. -/
theorem fetch_data_sorted_or_empty (exchange : Exchange)
    (symbol timeframe : String) (limit : Nat) :
    (∀ e, exchange symbol timeframe limit = .error e →
      fetch_data exchange symbol timeframe limit = []) ∧
    (∀ rows, exchange symbol timeframe limit = .ok rows →
      List.Perm (fetch_data exchange symbol timeframe limit) rows ∧
      ((fetch_data exchange symbol timeframe limit).map
        OhlcvRow.timestamp).Pairwise (· ≤ ·)) := by
  constructor
  · intro e he
    unfold fetch_data
    rw [he]
  · intro rows hr
    unfold fetch_data
    rw [hr]
    exact ⟨List.perm_insertionSort msLe rows,
      List.pairwise_map.mpr (List.sorted_insertionSort msLe rows)⟩

theorem fetch_data_sorted_or_empty_witness :
    fetch_data exchangeDown "BTC/USDT" "1d" 200 = [] ∧
    (List.Perm (fetch_data exchangeUp "BTC/USDT" "1d" 200)
        [⟨2, 1, 1, 1, 1, 1⟩, ⟨1, 2, 2, 2, 2, 2⟩] ∧
      ((fetch_data exchangeUp "BTC/USDT" "1d" 200).map
        OhlcvRow.timestamp).Pairwise (· ≤ ·)) :=
  ⟨(fetch_data_sorted_or_empty exchangeDown "BTC/USDT" "1d" 200).1
      ("network unreachable") rfl,
    (fetch_data_sorted_or_empty exchangeUp "BTC/USDT" "1d" 200).2
      [⟨2, 1, 1, 1, 1, 1⟩, ⟨1, 2, 2, 2, 2, 2⟩] rfl⟩

/-- C1: each successful `store_data_in_sql` call on a table whose timestamp
column is free of duplicates appends a batch in which every row is strictly
newer than the previously stored maximum timestamp, and it leaves the table
again free of duplicates with its timestamp column, read in `ORDER BY
timestamp` order, strictly increasing.  (A call that would break the
primary-key uniqueness raises instead of returning, so every terminating
sequence of store calls preserves the invariant.) -/
theorem store_preserves_timestamp_invariant {df df' : PriceDF}
    {t : List Candle} {db' : Option (List Candle)} {n : Nat}
    (hInv : (t.map Candle.timestamp).Nodup)
    (h : store_data_in_sql df (some t) = .ok (df', db', n)) :
    ∃ batch, db' = some (t ++ batch) ∧
      ((t ++ batch).map Candle.timestamp).Nodup ∧
      (∀ b ∈ batch, ∀ m, sqlMaxTs t = some m → m < b.timestamp) ∧
      ((orderByTimestamp (t ++ batch)).map Candle.timestamp).Pairwise
        (· < ·) := by
  rcases store_ok_shape h with ⟨-, -, hdb, -⟩ | ⟨-, -, hdb, -, hpk⟩
  · refine ⟨[], ?_, ?_, ?_, ?_⟩
    · rw [List.append_nil]; exact hdb
    · rw [List.append_nil]; exact hInv
    · intro b hb; cases hb
    · rw [List.append_nil]; exact orderByTimestamp_pairwise_lt hInv
  · simp only [Option.getD_some] at hdb hpk
    have hnd : ((t ++ rowsToInsert (sqlMaxTs t) df.rows).map
        Candle.timestamp).Nodup := by
      rw [List.map_append, List.nodup_append]
      refine ⟨hInv, hpk.1, ?_⟩
      intro a ha ha'
      obtain ⟨b, hb, rfl⟩ := List.mem_map.mp ha'
      exact hpk.2 b hb ha
    refine ⟨rowsToInsert (sqlMaxTs t) df.rows, hdb, hnd, ?_,
      orderByTimestamp_pairwise_lt hnd⟩
    intro b hb m hm
    by_cases hme : m = ""
    · have hmem : m ∈ t.map Candle.timestamp := sqlMaxTs_mem hm
      have hne : b.timestamp ≠ m := by
        intro he
        exact hpk.2 b hb (he ▸ hmem)
      subst hme
      exact lt_of_le_of_ne (string_empty_le b.timestamp) (Ne.symm hne)
    · rw [hm] at hb
      exact (strLt_iff m b.timestamp).mp (gt_of_mem_rowsToInsert hme hb)

theorem store_preserves_timestamp_invariant_witness :
    ∃ batch,
      (some (c1Table ++ [c1New]) : Option (List Candle)) =
        some (c1Table ++ batch) ∧
      ((c1Table ++ batch).map Candle.timestamp).Nodup ∧
      (∀ b ∈ batch, ∀ m, sqlMaxTs c1Table = some m → m < b.timestamp) ∧
      ((orderByTimestamp (c1Table ++ batch)).map Candle.timestamp).Pairwise
        (· < ·) :=
  @store_preserves_timestamp_invariant c1DF (mutDF c1DF) c1Table
    (some (c1Table ++ [c1New])) 1 (by decide) rfl

/-- C4: whenever the table has a stored maximum timestamp `m`, a successful
`store_data_in_sql` call never inserts a row whose timestamp is `≤ m`:
every row of the resulting table that was not already stored is strictly
greater than `m`.  The comparison deciding this is the lexicographic order
on the stored string representation (Lean's `String` order compares the
character lists lexicographically, as the second conjunct records), so it
agrees with chronological order only when the string encoding is
order-preserving. -/
theorem store_inserts_only_newer {df df' : PriceDF} {t : List Candle}
    {db' : Option (List Candle)} {n : Nat} {m : String}
    (hm : sqlMaxTs t = some m)
    (h : store_data_in_sql df (some t) = .ok (df', db', n)) :
    (∀ t', db' = some t' → ∀ r ∈ t',
      r.timestamp ∉ t.map Candle.timestamp → m < r.timestamp) ∧
    (∀ s₁ s₂ : String, s₁ < s₂ ↔ s₁.data < s₂.data) := by
  refine ⟨?_, fun s₁ s₂ => String.lt_iff_toList_lt⟩
  intro t' ht' r hr hnotin
  rcases store_ok_shape h with ⟨-, -, hdb, -⟩ | ⟨-, -, hdb, -, hpk⟩
  · rw [ht'] at hdb
    obtain rfl := Option.some.inj hdb
    exact absurd (List.mem_map_of_mem Candle.timestamp hr) hnotin
  · simp only [Option.getD_some] at hdb hpk
    rw [ht'] at hdb
    obtain rfl := Option.some.inj hdb
    rcases List.mem_append.mp hr with hro | hrb
    · exact absurd (List.mem_map_of_mem Candle.timestamp hro) hnotin
    · by_cases hme : m = ""
      · have hmem : m ∈ t.map Candle.timestamp := sqlMaxTs_mem hm
        have hne : r.timestamp ≠ m := fun he => hnotin (he ▸ hmem)
        subst hme
        exact lt_of_le_of_ne (string_empty_le r.timestamp) (Ne.symm hne)
      · rw [hm] at hrb
        exact (strLt_iff m r.timestamp).mp (gt_of_mem_rowsToInsert hme hrb)

theorem store_inserts_only_newer_witness :
    ("2024-01-01 00:00:00" : String) < "2024-01-02 00:00:00" :=
  (@store_inserts_only_newer c4DF (mutDF c4DF) c4Table
      (some (c4Table ++ [c4New])) 1 "2024-01-01 00:00:00" rfl rfl).1
    (c4Table ++ [c4New]) rfl c4New (by decide) (by decide)

/-- C2: for every row of the `compute_signals` result, the signal is exactly
`1` iff the bullish confluence condition holds on that row (close > EMA_20,
close > VWAP, 50 < RSI < 70, close < BB_upper), exactly `-1` iff the bearish
condition holds (close < EMA_20, close < VWAP, RSI < 50, close > BB_lower),
and exactly `0` iff neither holds. -/
theorem compute_signals_signal_characterization {table : List Candle}
    {ta : TaOracle} {r : SigRow} (h : r ∈ compute_signals table ta) :
    (r.signal = 1 ↔ bullish_conditions r.toExtRow = true) ∧
    (r.signal = -1 ↔ bearish_conditions r.toExtRow = true) ∧
    (r.signal = 0 ↔ (bullish_conditions r.toExtRow = false ∧
      bearish_conditions r.toExtRow = false)) := by
  obtain ⟨-, hs⟩ := mem_compute_signals h
  rw [hs]
  exact ⟨signalOf_eq_one_iff _, signalOf_eq_negone_iff _, signalOf_eq_zero_iff _⟩

theorem compute_signals_signal_characterization_witness :
    (c2Row.signal = 1 ↔ bullish_conditions c2Row.toExtRow = true) ∧
    (c2Row.signal = -1 ↔ bearish_conditions c2Row.toExtRow = true) ∧
    (c2Row.signal = 0 ↔ (bullish_conditions c2Row.toExtRow = false ∧
      bearish_conditions c2Row.toExtRow = false)) :=
  @compute_signals_signal_characterization c2Table c2Ta c2Row (by decide)

/-- C8: signal classification is deterministic and mutually exclusive: on
every row of the `compute_signals` result the bullish and bearish conditions
are never both true (they demand close > EMA_20 and close < EMA_20
respectively), so no row is classified buy and sell at once, and the bearish
assignment performed second can never overwrite a bullish row: a row
satisfying the bullish condition always ends with signal `1`. -/
theorem compute_signals_mutually_exclusive {table : List Candle}
    {ta : TaOracle} {r : SigRow} (h : r ∈ compute_signals table ta) :
    ¬(bullish_conditions r.toExtRow = true ∧
        bearish_conditions r.toExtRow = true) ∧
    (bullish_conditions r.toExtRow = true → r.signal = 1) := by
  obtain ⟨-, hs⟩ := mem_compute_signals h
  refine ⟨exclusive_conditions _, fun hb => ?_⟩
  rw [hs]
  exact (signalOf_eq_one_iff _).mpr hb

theorem compute_signals_mutually_exclusive_witness :
    ¬(bullish_conditions c8Row.toExtRow = true ∧
        bearish_conditions c8Row.toExtRow = true) ∧
    (bullish_conditions c8Row.toExtRow = true → c8Row.signal = 1) :=
  @compute_signals_mutually_exclusive c8Table c8Ta c8Row (by decide)

/-- C7: `compute_signals` returns an empty result on an empty table;
otherwise it reads all rows in ascending timestamp order, discards exactly
the rows on which some indicator column is undefined, and returns the
surviving rows — each with all five indicators defined and a `signal` column
attached — still in ascending timestamp order. -/
theorem compute_signals_drops_undefined (table : List Candle) (ta : TaOracle) :
    compute_signals [] ta = [] ∧
    (∀ r ∈ compute_signals table ta,
      allDefined r.toExtRow = true ∧ r.signal = signalOf r.toExtRow) ∧
    (compute_signals table ta).map SigRow.toExtRow =
      ((orderByTimestamp table).enum.map
        (fun p => extendWith ta (orderByTimestamp table) p.1 p.2)).filter
        (fun r => allDefined r) ∧
    ((compute_signals table ta).map
      (fun r => r.candle.timestamp)).Pairwise (· ≤ ·) := by
  have hshape : (compute_signals table ta).map SigRow.toExtRow =
      ((orderByTimestamp table).enum.map
        (fun p => extendWith ta (orderByTimestamp table) p.1 p.2)).filter
        (fun r => allDefined r) := by
    unfold compute_signals
    by_cases h0 : orderByTimestamp table = []
    · rw [if_pos h0, h0]
      rfl
    · rw [if_neg h0]
      rw [List.map_map]
      exact List.map_id _
  refine ⟨rfl, fun r hr => mem_compute_signals hr, hshape, ?_⟩
  have hcand : (((compute_signals table ta).map SigRow.toExtRow).map
      (fun e => e.candle)).Pairwise tsLe := by
    rw [hshape]
    refine List.Pairwise.sublist
      (List.Sublist.map (fun e => e.candle)
        (List.filter_sublist
          ((orderByTimestamp table).enum.map
            (fun p => extendWith ta (orderByTimestamp table) p.1 p.2)))) ?_
    have hmap : (((orderByTimestamp table).enum.map
        (fun p => extendWith ta (orderByTimestamp table) p.1 p.2)).map
        (fun e => e.candle)) = orderByTimestamp table := by
      rw [List.map_map]
      exact List.enum_map_snd (orderByTimestamp table)
    rw [hmap]
    exact orderByTimestamp_sorted table
  exact List.pairwise_map.mpr
    ((List.pairwise_map.mp (List.pairwise_map.mp hcand)).imp
      (fun h => (strLe_iff _ _).mp h))

theorem compute_signals_drops_undefined_witness :
    allDefined c7Row.toExtRow = true ∧
      c7Row.signal = signalOf c7Row.toExtRow :=
  (compute_signals_drops_undefined c7Table c7Ta).2.1 c7Row (by decide)

theorem store_eval_empty (df : PriceDF) (db : Option (List Candle))
    (h0 : df.rows = []) : store_data_in_sql df db = .ok (df, db, 0) := by
  unfold store_data_in_sql
  rw [if_pos h0]

theorem store_eval (df : PriceDF) (db : Option (List Candle))
    (h0 : df.rows ≠ []) :
    store_data_in_sql df db =
      if rowsToInsert (sqlMaxTs (db.getD [])) df.rows = [] then
        .ok (mutDF df, some (db.getD []), 0)
      else if pkOk (db.getD []) (rowsToInsert (sqlMaxTs (db.getD [])) df.rows)
      then
        .ok (mutDF df,
          some (db.getD [] ++ rowsToInsert (sqlMaxTs (db.getD [])) df.rows),
          (rowsToInsert (sqlMaxTs (db.getD [])) df.rows).length)
      else .error () := by
  unfold store_data_in_sql
  rw [if_neg h0]

/-- C3: storing a Candle sequence (pairwise-distinct, non-degenerate
timestamps, per the data model where the timestamp is the candle's unique
key) twice in succession on the same database and table succeeds, and the
second call inserts 0 rows, returns 0 and leaves the table contents — and
the DataFrame — unchanged: deduplication is idempotent. -/
theorem store_twice_idempotent (df : PriceDF) (db : Option (List Candle))
    (h1 : (df.rows.map Candle.timestamp).Nodup)
    (h2 : ∀ c ∈ df.rows, c.timestamp ≠ "") :
    ∃ df₁ db₁ n,
      store_data_in_sql df db = .ok (df₁, db₁, n) ∧
      store_data_in_sql df₁ db₁ = .ok (df₁, db₁, 0) := by
  by_cases h0 : df.rows = []
  · exact ⟨df, db, 0, store_eval_empty df db h0, store_eval_empty df db h0⟩
  · by_cases hb : rowsToInsert (sqlMaxTs (db.getD [])) df.rows = []
    · refine ⟨mutDF df, some (db.getD []), 0, ?_, ?_⟩
      · rw [store_eval df db h0, if_pos hb]
      · rw [store_eval (mutDF df) (some (db.getD [])) h0]
        rw [if_pos (by exact hb)]
        rfl
    · have hpk : pkOk (db.getD [])
          (rowsToInsert (sqlMaxTs (db.getD [])) df.rows) := by
        refine ⟨rowsToInsert_nodup h1, ?_⟩
        intro b hbmem hmem
        obtain ⟨c₀, hc₀, hc₀ts⟩ := List.mem_map.mp hmem
        cases hlast : sqlMaxTs (db.getD []) with
        | none =>
          rw [sqlMaxTs_eq_none hlast] at hc₀
          cases hc₀
        | some m =>
          have hble : strLe b.timestamp m := by
            have := le_sqlMaxTs hc₀ hlast
            rw [hc₀ts] at this
            exact this
          by_cases hme : m = ""
          · subst hme
            exact h2 b (mem_of_mem_rowsToInsert hbmem)
              (str_eq_empty_of_le hble)
          · rw [hlast] at hbmem
            have hgt := gt_of_mem_rowsToInsert hme hbmem
            exact absurd hble (not_le.mpr hgt)
      have hb2 : rowsToInsert
          (sqlMaxTs (db.getD [] ++
            rowsToInsert (sqlMaxTs (db.getD [])) df.rows)) df.rows = [] := by
        have ht2ne : db.getD [] ++
            rowsToInsert (sqlMaxTs (db.getD [])) df.rows ≠ [] :=
          fun he => hb (List.append_eq_nil.mp he).2
        cases hM : sqlMaxTs (db.getD [] ++
            rowsToInsert (sqlMaxTs (db.getD [])) df.rows) with
        | none => exact absurd (sqlMaxTs_eq_none hM) ht2ne
        | some M =>
          obtain ⟨b₀, hb₀⟩ := List.exists_mem_of_ne_nil _ hb
          have hb₀t2 : b₀ ∈ db.getD [] ++
              rowsToInsert (sqlMaxTs (db.getD [])) df.rows :=
            List.mem_append_right _ hb₀
          have hMne : M ≠ "" := by
            intro he
            subst he
            exact h2 b₀ (mem_of_mem_rowsToInsert hb₀)
              (str_eq_empty_of_le (le_sqlMaxTs hb₀t2 hM))
          simp only [rowsToInsert, if_neg hMne]
          rw [List.filter_eq_nil_iff]
          intro c hc
          rw [decide_eq_true_eq]
          refine not_lt.mpr ?_
          by_cases hcb : c ∈ rowsToInsert (sqlMaxTs (db.getD [])) df.rows
          · exact le_sqlMaxTs (List.mem_append_right _ hcb) hM
          · cases hlast : sqlMaxTs (db.getD []) with
            | none =>
              rw [hlast] at hcb
              exact absurd hc hcb
            | some m =>
              by_cases hme : m = ""
              · rw [hlast, hme] at hcb
                simp only [rowsToInsert, if_pos rfl] at hcb
                exact absurd hc hcb
              · rw [hlast] at hcb
                have hcm := le_of_not_mem_rowsToInsert hme hc hcb
                obtain ⟨c₀, hc₀, hc₀ts⟩ := List.mem_map.mp (sqlMaxTs_mem hlast)
                have hmM : strLe m M := by
                  have := le_sqlMaxTs (List.mem_append_left _ hc₀) hM
                  rw [hc₀ts] at this
                  exact this
                exact strLe_trans hcm hmM
      refine ⟨mutDF df,
        some (db.getD [] ++ rowsToInsert (sqlMaxTs (db.getD [])) df.rows),
        (rowsToInsert (sqlMaxTs (db.getD [])) df.rows).length, ?_, ?_⟩
      · rw [store_eval df db h0, if_neg hb, if_pos hpk]
      · rw [store_eval (mutDF df) _ h0]
        rw [if_pos (by exact hb2)]
        rfl

theorem store_twice_idempotent_witness :
    ∃ df₁ db₁ n,
      store_data_in_sql c3DF none = .ok (df₁, db₁, n) ∧
      store_data_in_sql df₁ db₁ = .ok (df₁, db₁, 0) :=
  store_twice_idempotent c3DF none (by decide) (by decide)
